import Mathlib

/-!
Shallow embedding of the ECMA-335 table-stream decoder in
`src/cli/logical_tables.rs`, together with theorems settling the spec
claims about it.  Machine integers are modelled as `Nat` (every value
read is a `u8`/`u16`/`u32`/`u64` and no arithmetic in the source can
overflow those widths for byte-valued input); fallible code returns
`Except Error`.  The mutable cursor of the source is modelled by
explicit offset passing: each parser takes the current offset and
returns its result together with the new offset.
-/

set_option maxRecDepth 4000

deriving instance DecidableEq for Except

namespace Apparatus

/-- Decode errors.  `BoundsError` is the failure of the primitive
reader; `Msg` carries the message string of a failed validation or an
unknown coded index tag, as raised in the source by
`Err("...")?`. -/
inductive Error where
  | BoundsError : Error
  | Msg : String → Error
deriving DecidableEq, Repr

/-- 2-byte or 4-byte index width (`IndexSize` in the source). -/
inductive IndexSize where
  | U16 : IndexSize
  | U32 : IndexSize
deriving DecidableEq, Repr

/-- Little-endian value of `n` bytes of `data` starting at `offset`.
Out-of-range positions read as 0; `readLe` bounds-checks before using
this. -/
def leBytes (data : List Nat) : Nat → Nat → Nat
  | _, 0 => 0
  | offset, n+1 => data.getD offset 0 + 256 * leBytes data (offset+1) n

/-- Modelled from the spec: the primitive reader
(`crate::buf::Reading`, a collaborator whose implementation is not in
the given fragment).  Contract per the spec: `read<T>(cursor) -> T or
BoundsError`, a little-endian unsigned integer of `n` bytes at
`offset`, failing when fewer than `n` bytes remain past `offset`; the
caller advances the cursor by `n`. -/
def readLe (data : List Nat) (offset n : Nat) : Except Error Nat :=
  if offset + n ≤ data.length then .ok (leBytes data offset n)
  else .error .BoundsError

/-! Table ids, taken from ECMA II.22 exactly as in the source. -/

def METADATA_MODULE                   : Nat := 0x00
def METADATA_TYPE_REF                 : Nat := 0x01
def METADATA_TYPE_DEF                 : Nat := 0x02
def METADATA_FIELD                    : Nat := 0x04
def METADATA_METHOD_DEF               : Nat := 0x06
def METADATA_PARAM                    : Nat := 0x08
def METADATA_INTERFACE_IMPL           : Nat := 0x09
def METADATA_MEMBER_REF               : Nat := 0x0A
def METADATA_CONSTANT                 : Nat := 0x0B
def METADATA_CUSTOM_ATTRIBUTE         : Nat := 0x0C
def METADATA_FIELD_MARSHAL            : Nat := 0x0D
def METADATA_DECL_SECURITY            : Nat := 0x0E
def METADATA_CLASS_LAYOUT             : Nat := 0x0F
def METADATA_FIELD_LAYOUT             : Nat := 0x10
def METADATA_STANDALONE_SIG           : Nat := 0x11
def METADATA_EVENT_MAP                : Nat := 0x12
def METADATA_EVENT                    : Nat := 0x14
def METADATA_PROPERTY_MAP             : Nat := 0x15
def METADATA_PROPERTY                 : Nat := 0x17
def METADATA_METHOD_SEMANTICS         : Nat := 0x18
def METADATA_METHOD_IMPL              : Nat := 0x19
def METADATA_MODULE_REF               : Nat := 0x1A
def METADATA_TYPE_SPEC                : Nat := 0x1B
def METADATA_IMPL_MAP                 : Nat := 0x1C
def METADATA_FIELD_RVA                : Nat := 0x1D
def METADATA_ASSEMBLY                 : Nat := 0x20
def METADATA_ASSEMBLY_PROCESSOR       : Nat := 0x21
def METADATA_ASSEMBLY_OS              : Nat := 0x22
def METADATA_ASSEMBLY_REF             : Nat := 0x23
def METADATA_ASSEMBLY_REFPROCESSOR    : Nat := 0x24
def METADATA_ASSEMBLY_REFOS           : Nat := 0x25
def METADATA_FILE                     : Nat := 0x26
def METADATA_EXPORTED_TYPE            : Nat := 0x27
def METADATA_MANIFEST_RESOURCE        : Nat := 0x28
def METADATA_NESTED_CLASS             : Nat := 0x29
def METADATA_GENERIC_PARAM            : Nat := 0x2A
def METADATA_METHOD_SPEC              : Nat := 0x2B
def METADATA_GENERIC_PARAM_CONSTRAINT : Nat := 0x2C

/-- The table-stream header (`Tables` in the source): per-heap index
widths, the 64-entry row-count array `lens`, the number of header
bytes consumed `size`, and the presence bitmask `valid_mask`. -/
structure Tables where
  string_index_size : IndexSize
  guid_index_size   : IndexSize
  blob_index_size   : IndexSize
  lens : List Nat
  size : Nat
  valid_mask : Nat
deriving DecidableEq, Repr

/-- The row-count loop of `Tables::parse`: for each bit index `i`
(64 iterations in the source, here `fuel` counting down), read a
4-byte count when bit `i` of `mask` is set, keep the `0u32`
initialisation otherwise.  Returns the filled entries in index order
and the final offset. -/
def parseLens (data : List Nat) (mask : Nat) :
    Nat → Nat → Nat → Except Error (List Nat × Nat)
  | 0, _, offset => .ok ([], offset)
  | fuel+1, i, offset =>
    if (mask >>> i) &&& 1 = 1 then
      match readLe data offset 4 with
      | .error e => .error e
      | .ok v =>
        match parseLens data mask fuel (i+1) (offset+4) with
        | .error e => .error e
        | .ok (rest, off) => .ok (v :: rest, off)
    else
      match parseLens data mask fuel (i+1) offset with
      | .error e => .error e
      | .ok (rest, off) => .ok (0 :: rest, off)

/-- The number of set bits of `mask` among bit positions
`i, i+1, ..., i+m-1`. -/
def countSet (mask : Nat) : Nat → Nat → Nat
  | _, 0 => 0
  | i, m+1 => (if (mask >>> i) &&& 1 = 1 then 1 else 0) + countSet mask (i+1) m

/-- Source `Tables::parse`: skip 6 bytes (Reserved1, major and minor
version), read the 1-byte HeapSizes vector, skip 1 byte (Reserved2),
read the 8-byte Valid mask, skip 8 bytes (Sorted), then read a 4-byte
row count for each set bit of the Valid mask; `size` is the final
cursor offset. -/
def Tables.parse (data : List Nat) : Except Error Tables :=
  match readLe data 6 1 with
  | .error e => .error e
  | .ok heap_sizes =>
    match readLe data 8 8 with
    | .error e => .error e
    | .ok valid_mask =>
      match parseLens data valid_mask 64 0 24 with
      | .error e => .error e
      | .ok (lens, size) =>
        .ok { string_index_size :=
                if heap_sizes &&& 0x01 = 0 then IndexSize.U16 else IndexSize.U32,
              guid_index_size :=
                if heap_sizes &&& 0x02 = 0 then IndexSize.U16 else IndexSize.U32,
              blob_index_size :=
                if heap_sizes &&& 0x04 = 0 then IndexSize.U16 else IndexSize.U32,
              lens, size, valid_mask }

/-- Source `Tables::has_table`. -/
def Tables.has_table (t : Tables) (id : Nat) : Bool :=
  (t.valid_mask >>> id) &&& 1 = 1

/-- An index into the String heap. -/
structure StringIndex where
  val : Nat
deriving DecidableEq, Repr

/-- An index into the GUID heap. -/
structure GuidIndex where
  val : Nat
deriving DecidableEq, Repr

/-- Source `StringIndex::parse`: a 2- or 4-byte read as fixed by the header. -/
def StringIndex.parse (header : Tables) (data : List Nat) (offset : Nat) :
    Except Error (StringIndex × Nat) :=
  match header.string_index_size with
  | .U16 =>
    match readLe data offset 2 with
    | .error e => .error e
    | .ok v => .ok (⟨v⟩, offset + 2)
  | .U32 =>
    match readLe data offset 4 with
    | .error e => .error e
    | .ok v => .ok (⟨v⟩, offset + 4)

/-- Source `GuidIndex::parse`: a 2- or 4-byte read as fixed by the header. -/
def GuidIndex.parse (header : Tables) (data : List Nat) (offset : Nat) :
    Except Error (GuidIndex × Nat) :=
  match header.guid_index_size with
  | .U16 =>
    match readLe data offset 2 with
    | .error e => .error e
    | .ok v => .ok (⟨v⟩, offset + 2)
  | .U32 =>
    match readLe data offset 4 with
    | .error e => .error e
    | .ok v => .ok (⟨v⟩, offset + 4)

/-- The `log2` of the source: `64usize - x.leading_zeros()`, i.e. the
bit length of `x` on a 64-bit machine: one plus the position of the
highest set bit among bits 0..63, and 0 for `x = 0`. -/
def log2 (x : Nat) : Nat :=
  (List.range 64).foldl (fun acc i => if (x >>> i) &&& 1 = 1 then i + 1 else acc) 0

/-- Source `size_for_big_index`: the `1 << (16 - log2(n))` of the code. -/
def size_for_big_index (n : Nat) : Nat := 1 <<< (16 - log2 n)

/-- One coded-index kind as configured by a `coded_index!` invocation:
the tag bit width `$bits` and the ordered list of
`(tag value, table id)` pairs. -/
structure CodedIndexKind where
  bits : Nat
  variants : List (Nat × Nat)
deriving DecidableEq, Repr

/-- The `max!(header.lens[id], ...)` of the generated parser: the
maximum row count over the candidate tables of the kind. -/
def maxLens (lens : List Nat) (k : CodedIndexKind) : Nat :=
  k.variants.foldr (fun p acc => max (lens.getD p.2 0) acc) 0

/-- The decode step of the generated parser, applied to the raw value
already read: `tag = value & ((1 << bits) - 1)`,
`idx = value >> bits`, then the `match tag` over the configured
variants, whose fall-through arm is `Err("Unknown coded index tag.")`.
A successful decode yields the `(table id, row index)` pair the
matching variant carries. -/
def decodeRaw (k : CodedIndexKind) (value : Nat) : Except Error (Nat × Nat) :=
  let tag := value &&& ((1 <<< k.bits) - 1)
  let idx := value >>> k.bits
  match k.variants.lookup tag with
  | some tid => .ok (tid, idx)
  | none => .error (.Msg "Unknown coded index tag.")

/-- The generated `parse` of a coded-index kind: read 2 bytes when the
maximum candidate row count is below `size_for_big_index(COUNT)`
(`COUNT` = number of variants), else 4 bytes, then decode tag and row
index. -/
def CodedIndexKind.parse (k : CodedIndexKind) (header : Tables)
    (data : List Nat) (offset : Nat) : Except Error ((Nat × Nat) × Nat) :=
  let max_len := maxLens header.lens k
  if max_len < size_for_big_index k.variants.length then
    match readLe data offset 2 with
    | .error e => .error e
    | .ok value =>
      match decodeRaw k value with
      | .error e => .error e
      | .ok r => .ok (r, offset + 2)
  else
    match readLe data offset 4 with
    | .error e => .error e
    | .ok value =>
      match decodeRaw k value with
      | .error e => .error e
      | .ok r => .ok (r, offset + 4)

/-! The twelve `coded_index!` invocations of the source, with the same
tag widths and the same ordered `(tag value, table id)` mappings. -/

def TypeDefOrRef : CodedIndexKind :=
  ⟨2, [(0, METADATA_TYPE_DEF), (1, METADATA_TYPE_REF),
       (2, METADATA_TYPE_SPEC)]⟩

def HasConstant : CodedIndexKind :=
  ⟨2, [(0, METADATA_FIELD), (1, METADATA_PARAM), (2, METADATA_PROPERTY)]⟩

def HasCustomAttribute : CodedIndexKind :=
  ⟨5, [(0, METADATA_METHOD_DEF), (1, METADATA_FIELD),
       (2, METADATA_TYPE_REF), (3, METADATA_TYPE_DEF),
       (4, METADATA_PARAM), (5, METADATA_INTERFACE_IMPL),
       (6, METADATA_MEMBER_REF), (7, METADATA_MODULE),
       (8, METADATA_DECL_SECURITY), (9, METADATA_PROPERTY),
       (10, METADATA_EVENT), (11, METADATA_STANDALONE_SIG),
       (12, METADATA_MODULE_REF), (13, METADATA_TYPE_SPEC),
       (14, METADATA_ASSEMBLY), (15, METADATA_ASSEMBLY_REF),
       (16, METADATA_FILE), (17, METADATA_EXPORTED_TYPE),
       (18, METADATA_MANIFEST_RESOURCE), (19, METADATA_GENERIC_PARAM),
       (20, METADATA_GENERIC_PARAM_CONSTRAINT),
       (21, METADATA_METHOD_SPEC)]⟩

def HasFieldMarshall : CodedIndexKind :=
  ⟨1, [(0, METADATA_FIELD), (1, METADATA_PARAM)]⟩

def HasDeclSecurity : CodedIndexKind :=
  ⟨2, [(0, METADATA_TYPE_DEF), (1, METADATA_METHOD_DEF),
       (2, METADATA_ASSEMBLY)]⟩

def MemberRefParent : CodedIndexKind :=
  ⟨3, [(0, METADATA_TYPE_DEF), (1, METADATA_TYPE_REF),
       (2, METADATA_MODULE_REF), (3, METADATA_METHOD_DEF),
       (4, METADATA_TYPE_SPEC)]⟩

def HasSemantics : CodedIndexKind :=
  ⟨1, [(0, METADATA_EVENT), (1, METADATA_PROPERTY)]⟩

def MethodDefOrRef : CodedIndexKind :=
  ⟨1, [(0, METADATA_METHOD_DEF), (1, METADATA_MEMBER_REF)]⟩

def MemberForwarded : CodedIndexKind :=
  ⟨1, [(0, METADATA_FIELD), (1, METADATA_METHOD_DEF)]⟩

def Implementation : CodedIndexKind :=
  ⟨2, [(0, METADATA_FILE), (1, METADATA_ASSEMBLY_REF),
       (2, METADATA_EXPORTED_TYPE)]⟩

def CustomAttributeType : CodedIndexKind :=
  ⟨3, [(2, METADATA_METHOD_DEF), (3, METADATA_MEMBER_REF)]⟩

def ResolutionScope : CodedIndexKind :=
  ⟨2, [(0, METADATA_MODULE), (1, METADATA_MODULE_REF),
       (2, METADATA_ASSEMBLY_REF), (3, METADATA_TYPE_REF)]⟩

/-- All twelve coded-index kinds defined by the source. -/
def allCodedIndexKinds : List CodedIndexKind :=
  [TypeDefOrRef, HasConstant, HasCustomAttribute, HasFieldMarshall,
   HasDeclSecurity, MemberRefParent, HasSemantics, MethodDefOrRef,
   MemberForwarded, Implementation, CustomAttributeType, ResolutionScope]

/-- A Module row (II.22.30): only the name and the module-version id
are retained; the reserved fields are validated and discarded. -/
structure Module where
  name : StringIndex
  mvid : GuidIndex
deriving DecidableEq, Repr

/-- The loop of `Module::parse_many`, iterated `n` times (second
argument): read the 2-byte generation (must be 0, else
`"Module has invalid generation."`), the name, the mvid, the 2-byte
EncId (must be 0, else `"Module.EncId is not zero."`) and the 2-byte
EncBaseId (must be 0, else `"Module.EncBaseId is not zero."`); push
`{ name, mvid }`. -/
def Module.parse_rows (header : Tables) (data : List Nat) :
    Nat → Nat → Except Error (List Module × Nat)
  | offset, 0 => .ok ([], offset)
  | offset, n+1 =>
    match readLe data offset 2 with
    | .error e => .error e
    | .ok generation =>
      if generation ≠ 0 then .error (.Msg "Module has invalid generation.")
      else
        match StringIndex.parse header data (offset + 2) with
        | .error e => .error e
        | .ok (name, o1) =>
          match GuidIndex.parse header data o1 with
          | .error e => .error e
          | .ok (mvid, o2) =>
            match readLe data o2 2 with
            | .error e => .error e
            | .ok enc_id =>
              if enc_id ≠ 0 then .error (.Msg "Module.EncId is not zero.")
              else
                match readLe data (o2 + 2) 2 with
                | .error e => .error e
                | .ok enc_base_id =>
                  if enc_base_id ≠ 0 then
                    .error (.Msg "Module.EncBaseId is not zero.")
                  else
                    match Module.parse_rows header data (o2 + 4) n with
                    | .error e => .error e
                    | .ok (rest, off) => .ok (⟨name, mvid⟩ :: rest, off)

/-- Source `Module::parse_many`: decode `header.lens[METADATA_MODULE]` rows
starting at `offset`. -/
def Module.parse_many (header : Tables) (data : List Nat) (offset : Nat) :
    Except Error (List Module × Nat) :=
  Module.parse_rows header data offset (header.lens.getD METADATA_MODULE 0)

/-- A TypeRef row (II.22.38 layout as implemented): a ResolutionScope
coded index carried as its decoded `(table id, row index)` pair, a
name and a namespace.  (`namespace` is a Lean keyword, hence the
field name `name_space`.) -/
structure TypeRef where
  scope : Nat × Nat
  name : StringIndex
  name_space : StringIndex
deriving DecidableEq, Repr

/-- The loop of `TypeRef::parse_many`, iterated `n` times: a
ResolutionScope coded index, a name and a namespace per row. -/
def TypeRef.parse_rows (header : Tables) (data : List Nat) :
    Nat → Nat → Except Error (List TypeRef × Nat)
  | offset, 0 => .ok ([], offset)
  | offset, n+1 =>
    match ResolutionScope.parse header data offset with
    | .error e => .error e
    | .ok (scope, o1) =>
      match StringIndex.parse header data o1 with
      | .error e => .error e
      | .ok (name, o2) =>
        match StringIndex.parse header data o2 with
        | .error e => .error e
        | .ok (name_space, o3) =>
          match TypeRef.parse_rows header data o3 n with
          | .error e => .error e
          | .ok (rest, off) => .ok (⟨scope, name, name_space⟩ :: rest, off)

/-- Source `TypeRef::parse_many`: decode `header.lens[METADATA_TYPE_REF]`
rows starting at `offset`. -/
def TypeRef.parse_many (header : Tables) (data : List Nat) (offset : Nat) :
    Except Error (List TypeRef × Nat) :=
  TypeRef.parse_rows header data offset (header.lens.getD METADATA_TYPE_REF 0)

/-- The decode result (`TableRows`): the source materialises row
arrays for exactly two tables, Module and TypeRef. -/
structure TableRows where
  modules : List Module
  type_refs : List TypeRef
deriving DecidableEq, Repr

/-- Source `TableRows::parse`: starting from offset 0, decode the Module
table when present (else keep an empty array without touching the
cursor), then the TypeRef table when present. -/
def TableRows.parse (header : Tables) (data : List Nat) :
    Except Error TableRows :=
  match (if header.has_table METADATA_MODULE then
           Module.parse_many header data 0
         else .ok ([], 0)) with
  | .error e => .error e
  | .ok (modules, o1) =>
    match (if header.has_table METADATA_TYPE_REF then
             TypeRef.parse_many header data o1
           else .ok ([], o1)) with
    | .error e => .error e
    | .ok (type_refs, _) => .ok { modules, type_refs }

/-! ### Concrete inputs used by the claims -/

/-- A row-count array whose only non-zero entry gives the Module
table (id 0x00) 8192 = 2^13 rows. -/
def lens8192 : List Nat := 8192 :: List.replicate 63 0

/-- A header carrying `lens8192`, with only the Module table present
and all heap indices 2 bytes wide. -/
def hdr8192 : Tables :=
  ⟨.U16, .U16, .U16, lens8192, 24, 1⟩

/-- The header bytes of the end-to-end scenario: 6 skipped bytes,
heap-size flag 0x00, a reserved byte, presence mask 0b11
little-endian, 8 skipped sorted-mask bytes, then row counts 1
(Module) and 0 (TypeRef). -/
def hdrBytesC8 : List Nat :=
  [0, 0, 0, 0, 0, 0,
   0,
   0,
   3, 0, 0, 0, 0, 0, 0, 0,
   0, 0, 0, 0, 0, 0, 0, 0,
   1, 0, 0, 0,
   0, 0, 0, 0]

/-- The header `Tables.parse hdrBytesC8` produces. -/
def tblC8 : Tables :=
  ⟨.U16, .U16, .U16, 1 :: 0 :: List.replicate 62 0, 32, 3⟩

/-- One Module row: generation 0, name 1, mvid 1, EncId 0,
EncBaseId 0, with 2-byte heap indices. -/
def rowBytesC8 : List Nat := [0, 0, 1, 0, 1, 0, 0, 0, 0, 0]

/-- A 16-byte header whose heap-size flag byte is 0b101 and whose
presence mask is 0. -/
def dataC5 : List Nat :=
  [0, 0, 0, 0, 0, 0, 5, 0, 0, 0, 0, 0, 0, 0, 0, 0]

/-- The header `Tables.parse dataC5` produces. -/
def tblC5 : Tables :=
  ⟨.U32, .U16, .U32, List.replicate 64 0, 24, 0⟩

/-- A header with Module and TypeRef present (mask 0b11), one row
each, all heap indices 2 bytes. -/
def tblC6 : Tables :=
  ⟨.U16, .U16, .U16, 1 :: 1 :: List.replicate 62 0, 32, 3⟩

/-- A Module row whose generation field is 5 (reserved, must be 0). -/
def dataGen5C6 : List Nat := [5, 0, 1, 0, 1, 0, 0, 0, 0, 0]

/-- A Module row whose EncId field is 1 (reserved, must be 0). -/
def dataEncIdC6 : List Nat := [0, 0, 1, 0, 1, 0, 1, 0, 0, 0]

/-- A Module row whose EncBaseId field is 1 (reserved, must be 0). -/
def dataEncBaseC6 : List Nat := [0, 0, 1, 0, 1, 0, 0, 0, 1, 0]

/-- A header with only the Module table present, one row. -/
def tblC6m : Tables :=
  ⟨.U16, .U16, .U16, 1 :: List.replicate 63 0, 28, 1⟩

/-- A valid Module row: generation 0, name 2, mvid 3, EncId 0,
EncBaseId 0. -/
def dataOkC6 : List Nat := [0, 0, 2, 0, 3, 0, 0, 0, 0, 0]

/-- A 16-byte all-zero buffer: zero presence mask, but 8 bytes short
of the 24-byte fixed header prologue. -/
def dataC9 : List Nat := List.replicate 16 0

/-- A header marking Module, TypeRef and TypeDef present (mask 0b111)
with row counts 1, 1 and 7: the TypeDef count is non-zero although
the decoder has no TypeDef schema. -/
def tblC10 : Tables :=
  ⟨.U16, .U16, .U16, 1 :: 1 :: 7 :: List.replicate 61 0, 36, 7⟩

/-- Exactly one Module row and one TypeRef row, with no TypeDef row
bytes at all. -/
def dataC10 : List Nat :=
  [0, 0, 1, 0, 1, 0, 0, 0, 0, 0,
   0, 0, 4, 0, 5, 0]

/-- The decode of `dataC10` under `tblC10`. -/
def rowsC10 : TableRows :=
  ⟨[⟨⟨1⟩, ⟨1⟩⟩], [⟨(METADATA_MODULE, 0), ⟨4⟩, ⟨5⟩⟩]⟩

/-! ### Helper lemmas -/

theorem readLe_ok_val {data : List Nat} {offset n v : Nat}
    (h : readLe data offset n = .ok v) : v = leBytes data offset n := by
  unfold readLe at h
  split at h
  · exact (Except.ok.injEq _ _).mp h |>.symm
  · exact absurd h (by simp)

theorem readLe_ok_le {data : List Nat} {offset n v : Nat}
    (h : readLe data offset n = .ok v) : offset + n ≤ data.length := by
  unfold readLe at h
  split at h
  · assumption
  · exact absurd h (by simp)

theorem mask_lor_shiftLeft (r t b : Nat) (h : t < 2 ^ b) :
    ((r <<< b) ||| t) &&& ((1 <<< b) - 1) = t := by
  rw [Nat.one_shiftLeft]
  apply Nat.eq_of_testBit_eq
  intro j
  rw [Nat.testBit_land, Nat.testBit_lor, Nat.testBit_shiftLeft,
    Nat.testBit_two_pow_sub_one]
  by_cases hj : j < b
  · have hb : ¬ j ≥ b := by omega
    simp [hj, hb]
  · have ht : t.testBit j = false :=
      Nat.testBit_lt_two_pow
        (lt_of_lt_of_le h (Nat.pow_le_pow_right (by norm_num) (by omega)))
    simp [hj, ht]

theorem shiftRight_lor_shiftLeft (r t b : Nat) (h : t < 2 ^ b) :
    ((r <<< b) ||| t) >>> b = r := by
  apply Nat.eq_of_testBit_eq
  intro j
  rw [Nat.testBit_shiftRight, Nat.testBit_lor, Nat.testBit_shiftLeft]
  have ht : t.testBit (b + j) = false :=
    Nat.testBit_lt_two_pow
      (lt_of_lt_of_le h (Nat.pow_le_pow_right (by norm_num) (by omega)))
  have hb : b + j ≥ b := Nat.le_add_right b j
  simp [ht, hb, Nat.add_sub_cancel_left]

/-- Decoding the encoding of a valid tag and a row index recovers
both.  Shared core of the round-trip results. -/
theorem decodeRaw_encode (k : CodedIndexKind) (t tid r : Nat)
    (hmem : k.variants.lookup t = some tid) (htag : t < 2 ^ k.bits) :
    decodeRaw k ((r <<< k.bits) ||| t) = .ok (tid, r) := by
  simp only [decodeRaw]
  rw [mask_lor_shiftLeft r t k.bits htag,
    shiftRight_lor_shiftLeft r t k.bits htag, hmem]

theorem countSet_succ_of_set {mask i : Nat} (h : (mask >>> i) &&& 1 = 1)
    (m : Nat) : countSet mask i (m+1) = 1 + countSet mask (i+1) m := by
  simp only [countSet, if_pos h]

theorem countSet_succ_of_clear {mask i : Nat} (h : ¬ (mask >>> i) &&& 1 = 1)
    (m : Nat) : countSet mask i (m+1) = countSet mask (i+1) m := by
  simp only [countSet, if_neg h, Nat.zero_add]

/-- Characterisation of the row-count loop: on success the final
offset advances by 4 bytes per set bit, the result has one entry per
scanned bit, an entry at a set bit is the successful 4-byte read at
the offset determined by the number of set bits before it, and an
entry at a clear bit is 0. -/
theorem parseLens_spec (data : List Nat) (mask : Nat) :
    ∀ fuel i offset rest off,
      parseLens data mask fuel i offset = .ok (rest, off) →
      off = offset + 4 * countSet mask i fuel
      ∧ rest.length = fuel
      ∧ (∀ j, j < fuel → (mask >>> (i+j)) &&& 1 = 1 →
          readLe data (offset + 4 * countSet mask i j) 4 = .ok (rest.getD j 0))
      ∧ (∀ j, j < fuel → ¬ (mask >>> (i+j)) &&& 1 = 1 →
          rest.getD j 0 = 0) := by
  intro fuel
  induction fuel with
  | zero =>
    intro i offset rest off h
    simp only [parseLens, Except.ok.injEq, Prod.mk.injEq] at h
    obtain ⟨hrest, hoff⟩ := h
    subst hrest; subst hoff
    exact ⟨by simp [countSet], rfl,
      fun j hj => absurd hj (Nat.not_lt_zero j),
      fun j hj => absurd hj (Nat.not_lt_zero j)⟩
  | succ n ih =>
    intro i offset rest off h
    simp only [parseLens] at h
    by_cases hbit : (mask >>> i) &&& 1 = 1
    · rw [if_pos hbit] at h
      cases hr : readLe data offset 4 with
      | error e => rw [hr] at h; exact absurd h (by simp)
      | ok v =>
        rw [hr] at h
        cases hrec : parseLens data mask n (i+1) (offset+4) with
        | error e => rw [hrec] at h; exact absurd h (by simp)
        | ok p =>
          obtain ⟨rest', off'⟩ := p
          rw [hrec] at h
          simp only [Except.ok.injEq, Prod.mk.injEq] at h
          obtain ⟨hrest, hoff⟩ := h
          obtain ⟨ih1, ih2, ih3, ih4⟩ := ih (i+1) (offset+4) rest' off' hrec
          refine ⟨?_, ?_, ?_, ?_⟩
          · rw [← hoff, ih1, countSet_succ_of_set hbit]; ring
          · rw [← hrest]; simp [ih2]
          · intro j hj hset
            cases j with
            | zero =>
              rw [← hrest]
              simpa [countSet] using hr
            | succ j' =>
              rw [← hrest]
              have := ih3 j' (by omega) (by rw [show i+1+j' = i+(j'+1) by ring]; exact hset)
              simpa [countSet_succ_of_set hbit, Nat.mul_add, Nat.mul_one,
                Nat.add_assoc, Nat.add_comm 4 _, Nat.add_left_comm 4 _] using this
          · intro j hj hclear
            cases j with
            | zero => exact absurd hbit (by simpa using hclear)
            | succ j' =>
              rw [← hrest]
              simpa using ih4 j' (by omega)
                (by rw [show i+1+j' = i+(j'+1) by ring]; exact hclear)
    · rw [if_neg hbit] at h
      cases hrec : parseLens data mask n (i+1) offset with
      | error e => rw [hrec] at h; exact absurd h (by simp)
      | ok p =>
        obtain ⟨rest', off'⟩ := p
        rw [hrec] at h
        simp only [Except.ok.injEq, Prod.mk.injEq] at h
        obtain ⟨hrest, hoff⟩ := h
        obtain ⟨ih1, ih2, ih3, ih4⟩ := ih (i+1) offset rest' off' hrec
        refine ⟨?_, ?_, ?_, ?_⟩
        · rw [← hoff, ih1, countSet_succ_of_clear hbit]
        · rw [← hrest]; simp [ih2]
        · intro j hj hset
          cases j with
          | zero => exact absurd hset (by simpa using hbit)
          | succ j' =>
            rw [← hrest]
            have := ih3 j' (by omega) (by rw [show i+1+j' = i+(j'+1) by ring]; exact hset)
            simpa [countSet_succ_of_clear hbit] using this
        · intro j hj hclear
          cases j with
          | zero => rw [← hrest]; simp
          | succ j' =>
            rw [← hrest]
            simpa using ih4 j' (by omega)
              (by rw [show i+1+j' = i+(j'+1) by ring]; exact hclear)

/-- Inversion of a successful header parse into its three reads. -/
theorem Tables.parse_ok {data : List Nat} {t : Tables}
    (h : Tables.parse data = .ok t) :
    ∃ heap mask lens size,
      readLe data 6 1 = .ok heap
      ∧ readLe data 8 8 = .ok mask
      ∧ parseLens data mask 64 0 24 = .ok (lens, size)
      ∧ t = ⟨if heap &&& 1 = 0 then .U16 else .U32,
             if heap &&& 2 = 0 then .U16 else .U32,
             if heap &&& 4 = 0 then .U16 else .U32,
             lens, size, mask⟩ := by
  unfold Tables.parse at h
  split at h
  · simp at h
  · rename_i heap h1
    split at h
    · simp at h
    · rename_i mask h2
      split at h
      · simp at h
      · rename_i lens size h3
        simp only [Except.ok.injEq] at h
        exact ⟨heap, mask, lens, size, h1, h2, h3, h.symm⟩

/-! ### Claims -/

/-- C1.  The claim states that a coded index of a kind with tag width
`b` is read as 2 bytes exactly when the maximum candidate row count is
below `2^(16-b)`.  It fails on the code: the width test uses
`size_for_big_index(COUNT)` where `COUNT` is the number of candidate
tables and `log2` is the bit length, so for ResolutionScope (tag width
2, four candidates) the threshold is `2^(16 - log2 4) = 2^13` instead
of `2^14`.  At a maximum row count of exactly 8192 = 2^13 (below
`2^(16-2)`, so the claim demands a 2-byte read) the parser consumes 4
bytes, and fails with a bounds error on a 2-byte buffer.  This
contradicts the ECMA-335 rule quoted in the comment at the top of the
source file, so it is recorded as a code bug. -/
theorem resolution_scope_width_divergence :
    maxLens lens8192 ResolutionScope = 8192
    ∧ ResolutionScope.bits = 2
    ∧ 8192 < 2 ^ (16 - 2)
    ∧ size_for_big_index ResolutionScope.variants.length = 2 ^ 13
    ∧ ResolutionScope.parse hdr8192 [0, 0, 0, 0] 0 = .ok ((METADATA_MODULE, 0), 4)
    ∧ ResolutionScope.parse hdr8192 [0, 0] 0 = .error .BoundsError := by
  refine ⟨by decide, by decide, by decide, by decide, by decide, by decide⟩

/-- C2.  Coded-index decoding computes `tag` as the low `b` bits and
`row_index` as the remaining high bits and returns the variant the
mapping of the kind assigns to the tag; consequently, for every kind
of the program, every tag of its mapping and every row index,
decoding `(row_index << b) | tag` yields exactly that variant with
exactly that row index. -/
theorem coded_index_round_trip (k : CodedIndexKind)
    (_hk : k ∈ allCodedIndexKinds) (t tid r : Nat)
    (hmem : k.variants.lookup t = some tid) (htag : t < 2 ^ k.bits) :
    decodeRaw k ((r <<< k.bits) ||| t) = .ok (tid, r) :=
  decodeRaw_encode k t tid r hmem htag

/-- Witness for C2: the CustomAttributeType kind at tag 3 and row
index 5. -/
theorem coded_index_round_trip_witness :
    decodeRaw CustomAttributeType ((5 <<< CustomAttributeType.bits) ||| 3)
      = .ok (METADATA_MEMBER_REF, 5) :=
  coded_index_round_trip CustomAttributeType (by decide) 3
    METADATA_MEMBER_REF 5 (by decide) (by decide)

/-- C3.  A raw value whose tag bits are absent from the mapping of
the kind decodes to the unknown-coded-index-tag error and no variant;
the mapping is the explicit per-kind list, so for CustomAttributeType
only tags 2 and 3 decode (to MethodDef and MemberRef) while tags 0
and 1 fail. -/
theorem coded_index_unknown_tag :
    (∀ k ∈ allCodedIndexKinds, ∀ value : Nat,
      k.variants.lookup (value &&& ((1 <<< k.bits) - 1)) = none →
      decodeRaw k value = .error (.Msg "Unknown coded index tag."))
    ∧ decodeRaw CustomAttributeType 0 = .error (.Msg "Unknown coded index tag.")
    ∧ decodeRaw CustomAttributeType 1 = .error (.Msg "Unknown coded index tag.")
    ∧ (∀ r : Nat, decodeRaw CustomAttributeType ((r <<< 3) ||| 2)
        = .ok (METADATA_METHOD_DEF, r))
    ∧ (∀ r : Nat, decodeRaw CustomAttributeType ((r <<< 3) ||| 3)
        = .ok (METADATA_MEMBER_REF, r)) := by
  refine ⟨?_, by decide, by decide, ?_, ?_⟩
  · intro k _ value hnone
    simp only [decodeRaw]
    rw [hnone]
  · intro r
    exact decodeRaw_encode CustomAttributeType 2 METADATA_METHOD_DEF r
      (by decide) (by decide)
  · intro r
    exact decodeRaw_encode CustomAttributeType 3 METADATA_MEMBER_REF r
      (by decide) (by decide)

/-- Witness for C3: the TypeDefOrRef kind (tag width 2, tags 0..2) at
raw value 3, whose tag bits 3 are outside the mapping. -/
theorem coded_index_unknown_tag_witness :
    decodeRaw TypeDefOrRef 3 = .error (.Msg "Unknown coded index tag.")
    ∧ decodeRaw CustomAttributeType ((7 <<< 3) ||| 2)
        = .ok (METADATA_METHOD_DEF, 7) :=
  ⟨coded_index_unknown_tag.1 TypeDefOrRef (by decide) 3 (by decide),
    coded_index_unknown_tag.2.2.2.1 7⟩

theorem getD_out_of_range (l : List Nat) (n : Nat) (h : l.length ≤ n) :
    l.getD n 0 = 0 := by
  simp [List.getD_eq_getElem?_getD, List.getElem?_eq_none h]

/-- C4.  The header parser consumes, in order: 6 bytes of skipped
reserved and version fields, the 1-byte heap-size flag vector (at
offset 6), a skipped reserved byte, the 8-byte presence mask (at
offset 8), the skipped 8-byte sorted mask, and then one 4-byte row
count per set bit of the presence mask scanned from bit 0 to bit 63,
stored at the index of the bit and located 4 bytes after the count of
each earlier set bit; the reported `size` is the total number of
bytes consumed, `24 + 4 * popcount`. -/
theorem stream_header_layout (data : List Nat) (t : Tables)
    (h : Tables.parse data = .ok t) :
    t.valid_mask = leBytes data 8 8
    ∧ t.size = 24 + 4 * countSet t.valid_mask 0 64
    ∧ t.lens.length = 64
    ∧ (∀ i, i < 64 → (t.valid_mask >>> i) &&& 1 = 1 →
        t.lens.getD i 0 = leBytes data (24 + 4 * countSet t.valid_mask 0 i) 4) := by
  obtain ⟨heap, mask, lens, size, h1, h2, h3, ht⟩ := Tables.parse_ok h
  obtain ⟨hoff, hlen, hset, _⟩ := parseLens_spec data mask 64 0 24 lens size h3
  subst ht
  refine ⟨readLe_ok_val h2, hoff, hlen, ?_⟩
  intro i hi hbit
  exact readLe_ok_val (hset i hi (by simpa using hbit))

/-- Witness for C4: the end-to-end header bytes of C8 (presence mask
0b11, two counts). -/
theorem stream_header_layout_witness :
    tblC8.valid_mask = leBytes hdrBytesC8 8 8
    ∧ tblC8.size = 24 + 4 * countSet tblC8.valid_mask 0 64
    ∧ tblC8.lens.length = 64
    ∧ (∀ i, i < 64 → (tblC8.valid_mask >>> i) &&& 1 = 1 →
        tblC8.lens.getD i 0
          = leBytes hdrBytesC8 (24 + 4 * countSet tblC8.valid_mask 0 i) 4) :=
  stream_header_layout hdrBytesC8 tblC8 (by decide)

/-- C5.  The three low bits of the heap-size flag byte (consumed at
offset 6) independently select the heap index widths: bit 0 set makes
string-heap indices 4 bytes (else 2), bit 1 GUID-heap indices, bit 2
blob-heap indices.  Quantifying over every input buffer covers all 8
combinations of the three bits. -/
theorem heap_size_flags (data : List Nat) (t : Tables)
    (h : Tables.parse data = .ok t) :
    t.string_index_size
      = (if (data.getD 6 0) &&& 1 = 0 then IndexSize.U16 else IndexSize.U32)
    ∧ t.guid_index_size
      = (if (data.getD 6 0) &&& 2 = 0 then IndexSize.U16 else IndexSize.U32)
    ∧ t.blob_index_size
      = (if (data.getD 6 0) &&& 4 = 0 then IndexSize.U16 else IndexSize.U32) := by
  obtain ⟨heap, mask, lens, size, h1, h2, h3, ht⟩ := Tables.parse_ok h
  have hv : heap = data.getD 6 0 := by
    have := readLe_ok_val h1
    simpa [leBytes] using this
  subst ht
  subst hv
  exact ⟨rfl, rfl, rfl⟩

/-- Witness for C5: a buffer whose flag byte is 0b101 (string and
blob indices 4 bytes, GUID indices 2 bytes). -/
theorem heap_size_flags_witness :
    tblC5.string_index_size
      = (if (dataC5.getD 6 0) &&& 1 = 0 then IndexSize.U16 else IndexSize.U32)
    ∧ tblC5.guid_index_size
      = (if (dataC5.getD 6 0) &&& 2 = 0 then IndexSize.U16 else IndexSize.U32)
    ∧ tblC5.blob_index_size
      = (if (dataC5.getD 6 0) &&& 4 = 0 then IndexSize.U16 else IndexSize.U32) :=
  heap_size_flags dataC5 tblC5 (by decide)

/-- C7.  After a successful header parse the row-count array has 64
entries, every entry whose presence bit is clear is 0, and every
entry whose presence bit is set is the value of a successful 4-byte
read located after the counts of the earlier set bits. -/
theorem row_counts_invariant (data : List Nat) (t : Tables)
    (h : Tables.parse data = .ok t) :
    t.lens.length = 64
    ∧ (∀ i, ¬ ((t.valid_mask >>> i) &&& 1 = 1) → t.lens.getD i 0 = 0)
    ∧ (∀ i, i < 64 → (t.valid_mask >>> i) &&& 1 = 1 →
        ∃ v, readLe data (24 + 4 * countSet t.valid_mask 0 i) 4 = .ok v
          ∧ t.lens.getD i 0 = v) := by
  obtain ⟨heap, mask, lens, size, h1, h2, h3, ht⟩ := Tables.parse_ok h
  obtain ⟨hoff, hlen, hset, hclear⟩ := parseLens_spec data mask 64 0 24 lens size h3
  subst ht
  refine ⟨hlen, ?_, ?_⟩
  · intro i hbit
    by_cases hi : i < 64
    · exact hclear i hi (by simpa using hbit)
    · exact getD_out_of_range lens i (by omega)
  · intro i hi hbit
    exact ⟨lens.getD i 0, hset i hi (by simpa using hbit), rfl⟩

/-- Witness for C7: the C8 header bytes again. -/
theorem row_counts_invariant_witness :
    tblC8.lens.length = 64
    ∧ (∀ i, ¬ ((tblC8.valid_mask >>> i) &&& 1 = 1) → tblC8.lens.getD i 0 = 0)
    ∧ (∀ i, i < 64 → (tblC8.valid_mask >>> i) &&& 1 = 1 →
        ∃ v, readLe hdrBytesC8 (24 + 4 * countSet tblC8.valid_mask 0 i) 4 = .ok v
          ∧ tblC8.lens.getD i 0 = v) :=
  row_counts_invariant hdrBytesC8 tblC8 (by decide)

/-- C8.  End-to-end: the scenario header bytes parse to a header with
2-byte heap indices, presence mask 0b11 and row counts 1 and 0, whose
consumed size is 32; the following row bytes decode to exactly one
Module row with name index 1 and mvid index 1, an empty TypeRef
array, and no arrays for any other table (the decode result only
contains Module and TypeRef arrays). -/
theorem end_to_end_decode :
    Tables.parse hdrBytesC8 = .ok tblC8
    ∧ tblC8.size = 32
    ∧ TableRows.parse tblC8 rowBytesC8
        = .ok { modules := [{ name := ⟨1⟩, mvid := ⟨1⟩ }], type_refs := [] } :=
  ⟨by decide, rfl, by decide⟩

theorem parseLens_zero (data : List Nat) :
    ∀ fuel i offset,
      parseLens data 0 fuel i offset = .ok (List.replicate fuel 0, offset) := by
  intro fuel
  induction fuel with
  | zero => intro i offset; simp [parseLens]
  | succ n ih =>
    intro i offset
    have hbit : ¬ (((0 : Nat) >>> i) &&& 1 = 1) := by
      simp [Nat.zero_shiftRight]
    simp [parseLens, hbit, ih, List.replicate_succ]

/-- C9.  The skipped header fields are never bounds-checked: any
16-byte buffer whose presence-mask bytes 8..16 are zero parses
successfully, and the reported header size 24 exceeds the length of
the buffer. -/
theorem header_skips_unchecked (data : List Nat) (hlen : data.length = 16)
    (hz : ∀ j, j < 8 → data.getD (8+j) 0 = 0) :
    ∃ t, Tables.parse data = .ok t ∧ t.size = 24 ∧ data.length < t.size := by
  have e0 : data[8]?.getD 0 = 0 := by simpa using hz 0 (by omega)
  have e1 : data[9]?.getD 0 = 0 := by simpa using hz 1 (by omega)
  have e2 : data[10]?.getD 0 = 0 := by simpa using hz 2 (by omega)
  have e3 : data[11]?.getD 0 = 0 := by simpa using hz 3 (by omega)
  have e4 : data[12]?.getD 0 = 0 := by simpa using hz 4 (by omega)
  have e5 : data[13]?.getD 0 = 0 := by simpa using hz 5 (by omega)
  have e6 : data[14]?.getD 0 = 0 := by simpa using hz 6 (by omega)
  have e7 : data[15]?.getD 0 = 0 := by simpa using hz 7 (by omega)
  have hmask : leBytes data 8 8 = 0 := by
    simp [leBytes, e0, e1, e2, e3, e4, e5, e6, e7]
  have hr1 : readLe data 6 1 = .ok (leBytes data 6 1) := by
    unfold readLe
    rw [if_pos (by omega)]
  have hr2 : readLe data 8 8 = .ok 0 := by
    unfold readLe
    rw [if_pos (by omega), hmask]
  have hr3 := parseLens_zero data 64 0 24
  have hparse : Tables.parse data = .ok
      ⟨if (leBytes data 6 1) &&& 1 = 0 then .U16 else .U32,
       if (leBytes data 6 1) &&& 2 = 0 then .U16 else .U32,
       if (leBytes data 6 1) &&& 4 = 0 then .U16 else .U32,
       List.replicate 64 0, 24, 0⟩ := by
    simp only [Tables.parse, hr1, hr2, hr3]
  exact ⟨_, hparse, rfl, by simp [hlen]⟩

/-- Witness for C9: the all-zero 16-byte buffer. -/
theorem header_skips_unchecked_witness :
    ∃ t, Tables.parse dataC9 = .ok t ∧ t.size = 24 ∧ dataC9.length < t.size :=
  header_skips_unchecked dataC9 (by decide) (fun j hj => by
    interval_cases j <;> decide)

/-- C6.  A Module row is read as 2-byte generation, name, mvid,
2-byte EncId, 2-byte EncBaseId; a non-zero generation aborts the
whole decode with the reserved-field error before any later table
(TypeRef included) is decoded, and similarly for EncId and EncBaseId;
on success only name and mvid are retained in the row. -/
theorem module_reserved_fields :
    (∀ (header : Tables) (data : List Nat) (g : Nat),
      header.has_table METADATA_MODULE = true →
      0 < header.lens.getD METADATA_MODULE 0 →
      readLe data 0 2 = .ok g → g ≠ 0 →
      TableRows.parse header data
        = .error (.Msg "Module has invalid generation."))
    ∧ TableRows.parse tblC6 dataEncIdC6
        = .error (.Msg "Module.EncId is not zero.")
    ∧ TableRows.parse tblC6 dataEncBaseC6
        = .error (.Msg "Module.EncBaseId is not zero.")
    ∧ TableRows.parse tblC6m dataOkC6
        = .ok { modules := [{ name := ⟨2⟩, mvid := ⟨3⟩ }], type_refs := [] } := by
  refine ⟨?_, by decide, by decide, by decide⟩
  intro header data g hhas hn hg hgne
  obtain ⟨m, hm⟩ := Nat.exists_eq_succ_of_ne_zero (Nat.pos_iff_ne_zero.mp hn)
  have hrows : Module.parse_many header data 0
      = .error (.Msg "Module has invalid generation.") := by
    unfold Module.parse_many
    rw [hm]
    simp only [Module.parse_rows, hg]
    simp [hgne]
  unfold TableRows.parse
  simp [hhas, hrows]

/-- Witness for C6: the generation-5 Module row under a header with
both Module and TypeRef present. -/
theorem module_reserved_fields_witness :
    TableRows.parse tblC6 dataGen5C6
      = .error (.Msg "Module has invalid generation.") :=
  module_reserved_fields.1 tblC6 dataGen5C6 5 (by decide) (by decide)
    (by decide) (by decide)

/-! ### Stability of the row decoder under trailing bytes (C10) -/

theorem getD_append_left (l l' : List Nat) (n : Nat) (h : n < l.length) :
    (l ++ l').getD n 0 = l.getD n 0 := by
  simp [List.getD_eq_getElem?_getD, List.getElem?_append_left h]

theorem leBytes_append (data extra : List Nat) :
    ∀ n offset, offset + n ≤ data.length →
      leBytes (data ++ extra) offset n = leBytes data offset n := by
  intro n
  induction n with
  | zero => intro offset _; rfl
  | succ m ih =>
    intro offset hle
    simp only [leBytes]
    rw [getD_append_left data extra offset (by omega), ih (offset+1) (by omega)]

theorem readLe_append {data : List Nat} (extra : List Nat) {offset n v : Nat}
    (h : readLe data offset n = .ok v) :
    readLe (data ++ extra) offset n = .ok v := by
  have hle := readLe_ok_le h
  have hv := readLe_ok_val h
  unfold readLe
  rw [if_pos (by simp [List.length_append]; omega)]
  rw [leBytes_append data extra n offset hle, hv]

theorem string_index_parse_append (header : Tables) (data extra : List Nat)
    (offset : Nat) (r : StringIndex × Nat)
    (h : StringIndex.parse header data offset = .ok r) :
    StringIndex.parse header (data ++ extra) offset = .ok r := by
  revert h
  unfold StringIndex.parse
  cases header.string_index_size with
  | U16 =>
    intro h
    dsimp only at h ⊢
    split at h
    · simp at h
    · rename_i v hr
      rw [readLe_append extra hr]
      exact h
  | U32 =>
    intro h
    dsimp only at h ⊢
    split at h
    · simp at h
    · rename_i v hr
      rw [readLe_append extra hr]
      exact h

theorem guid_index_parse_append (header : Tables) (data extra : List Nat)
    (offset : Nat) (r : GuidIndex × Nat)
    (h : GuidIndex.parse header data offset = .ok r) :
    GuidIndex.parse header (data ++ extra) offset = .ok r := by
  revert h
  unfold GuidIndex.parse
  cases header.guid_index_size with
  | U16 =>
    intro h
    dsimp only at h ⊢
    split at h
    · simp at h
    · rename_i v hr
      rw [readLe_append extra hr]
      exact h
  | U32 =>
    intro h
    dsimp only at h ⊢
    split at h
    · simp at h
    · rename_i v hr
      rw [readLe_append extra hr]
      exact h

theorem coded_index_parse_append (k : CodedIndexKind) (header : Tables)
    (data extra : List Nat) (offset : Nat) (r : (Nat × Nat) × Nat)
    (h : k.parse header data offset = .ok r) :
    k.parse header (data ++ extra) offset = .ok r := by
  unfold CodedIndexKind.parse at h ⊢
  dsimp only at h ⊢
  by_cases hw : maxLens header.lens k < size_for_big_index k.variants.length
  · rw [if_pos hw] at h ⊢
    split at h
    · simp at h
    · rename_i v hr
      rw [readLe_append extra hr]
      exact h
  · rw [if_neg hw] at h ⊢
    split at h
    · simp at h
    · rename_i v hr
      rw [readLe_append extra hr]
      exact h

theorem module_parse_rows_append (header : Tables) (data extra : List Nat) :
    ∀ n offset r, Module.parse_rows header data offset n = .ok r →
      Module.parse_rows header (data ++ extra) offset n = .ok r := by
  intro n
  induction n with
  | zero => intro offset r h; exact h
  | succ m ih =>
    intro offset r h
    simp only [Module.parse_rows] at h ⊢
    split at h
    · simp at h
    · rename_i g hg
      rw [readLe_append extra hg]
      dsimp only
      by_cases hgz : g ≠ 0
      · rw [if_pos hgz] at h
        simp at h
      · rw [if_neg hgz] at h ⊢
        split at h
        · simp at h
        · rename_i name o1 hs
          rw [string_index_parse_append header data extra (offset+2) (name, o1) hs]
          dsimp only
          split at h
          · simp at h
          · rename_i mvid o2 hgu
            rw [guid_index_parse_append header data extra o1 (mvid, o2) hgu]
            dsimp only
            split at h
            · simp at h
            · rename_i eid hei
              rw [readLe_append extra hei]
              dsimp only
              by_cases heiz : eid ≠ 0
              · rw [if_pos heiz] at h
                simp at h
              · rw [if_neg heiz] at h ⊢
                split at h
                · simp at h
                · rename_i ebid heb
                  rw [readLe_append extra heb]
                  dsimp only
                  by_cases hebz : ebid ≠ 0
                  · rw [if_pos hebz] at h
                    simp at h
                  · rw [if_neg hebz] at h ⊢
                    split at h
                    · simp at h
                    · rename_i rest off hrec
                      rw [ih (o2+4) (rest, off) hrec]
                      exact h

theorem module_parse_many_append (header : Tables) (data extra : List Nat)
    (offset : Nat) (r : List Module × Nat)
    (h : Module.parse_many header data offset = .ok r) :
    Module.parse_many header (data ++ extra) offset = .ok r := by
  unfold Module.parse_many at h ⊢
  exact module_parse_rows_append header data extra _ offset r h

theorem type_ref_parse_rows_append (header : Tables) (data extra : List Nat) :
    ∀ n offset r, TypeRef.parse_rows header data offset n = .ok r →
      TypeRef.parse_rows header (data ++ extra) offset n = .ok r := by
  intro n
  induction n with
  | zero => intro offset r h; exact h
  | succ m ih =>
    intro offset r h
    simp only [TypeRef.parse_rows] at h ⊢
    split at h
    · simp at h
    · rename_i scope o1 hsc
      rw [coded_index_parse_append ResolutionScope header data extra
        offset (scope, o1) hsc]
      dsimp only
      split at h
      · simp at h
      · rename_i name o2 hs
        rw [string_index_parse_append header data extra o1 (name, o2) hs]
        dsimp only
        split at h
        · simp at h
        · rename_i nsp o3 hns
          rw [string_index_parse_append header data extra o2 (nsp, o3) hns]
          dsimp only
          split at h
          · simp at h
          · rename_i rest off hrec
            rw [ih o3 (rest, off) hrec]
            exact h

theorem type_ref_parse_many_append (header : Tables) (data extra : List Nat)
    (offset : Nat) (r : List TypeRef × Nat)
    (h : TypeRef.parse_many header data offset = .ok r) :
    TypeRef.parse_many header (data ++ extra) offset = .ok r := by
  unfold TypeRef.parse_many at h ⊢
  exact type_ref_parse_rows_append header data extra _ offset r h

/-- C10.  The row decoder only ever decodes the Module and TypeRef
tables: a successful decode is unchanged by any bytes appended after
the consumed prefix, so no byte of row data is read for any table
with id at least 2 even when such a table is marked present with a
non-zero row count, the cursor stops after the TypeRef rows, and the
result carries row arrays only for Module and TypeRef (the only
fields of `TableRows`). -/
theorem table_rows_trailing_bytes_ignored (header : Tables) (data extra : List Nat)
    (r : TableRows) (h : TableRows.parse header data = .ok r) :
    TableRows.parse header (data ++ extra) = .ok r := by
  unfold TableRows.parse at h ⊢
  split at h
  · simp at h
  · rename_i modules o1 hp
    have hp' : (if header.has_table METADATA_MODULE then
          Module.parse_many header (data ++ extra) 0
        else .ok ([], 0)) = .ok (modules, o1) := by
      by_cases h0 : header.has_table METADATA_MODULE = true
      · rw [if_pos h0] at hp ⊢
        exact module_parse_many_append header data extra 0 (modules, o1) hp
      · rw [if_neg h0] at hp ⊢
        exact hp
    rw [hp']
    dsimp only
    split at h
    · simp at h
    · rename_i type_refs o2 hq
      have hq' : (if header.has_table METADATA_TYPE_REF then
            TypeRef.parse_many header (data ++ extra) o1
          else .ok ([], o1)) = .ok (type_refs, o2) := by
        by_cases h1 : header.has_table METADATA_TYPE_REF = true
        · rw [if_pos h1] at hq ⊢
          exact type_ref_parse_many_append header data extra o1 (type_refs, o2) hq
        · rw [if_neg h1] at hq ⊢
          exact hq
      rw [hq']
      exact h

/-- Witness for C10: a header marking TypeDef (id 2) present with 7
rows; the decode consumes only the Module and TypeRef rows and is
unchanged by trailing junk bytes. -/
theorem table_rows_trailing_bytes_ignored_witness :
    TableRows.parse tblC10 (dataC10 ++ [9, 9, 9, 9]) = .ok rowsC10 :=
  table_rows_trailing_bytes_ignored tblC10 dataC10 [9, 9, 9, 9] rowsC10 (by decide)

end Apparatus
